import Mathlib

/-!
Verification development for the offer-sheet generator (`src/app.py`).

Strings are modelled as `List Char` (Python `str` by Unicode code points);
scalar spreadsheet cell values are modelled by the `Value` variant type.
Each definition below is a shallow embedding of the Python function or code
block of the same (or clearly indicated) name.
-/

set_option maxHeartbeats 1000000

/-- Scalar cell value: a Python `str` (list of code points), an `int`, or
`None`/`NaN`.  `isinstance(value, str)` corresponds to the `vStr` case. -/
inductive Value where
  | vStr : List Char → Value
  | vInt : Int → Value
  | vNone : Value
deriving DecidableEq, Repr

/-- Python truthiness (`if value:`) for the modelled scalar values:
a string is truthy iff nonempty, an int iff nonzero, `None`/`NaN` falsy. -/
def Value.truthy : Value → Bool
  | .vStr s => !s.isEmpty
  | .vInt n => n != 0
  | .vNone => false

/-- Character-level replacement performed by `clean_excel_value` (src/app.py
lines 23-25): full-width parentheses become ASCII ones, newline and carriage
return become a space, every other character is untouched.  The four
sequential `str.replace` calls commute into this single map because no
replacement result is itself a replaced pattern. -/
def replChar (c : Char) : Char :=
  if c = '（' then '('
  else if c = '）' then ')'
  else if c = '\n' then ' '
  else if c = '\r' then ' '
  else c

/-- String part of `clean_excel_value` (src/app.py lines 22-31): replace the
special characters, drop code points below 32, truncate to 32767 characters.
`List.take` models the `value[:32767]` guard (a no-op on shorter strings). -/
def cleanChars (s : List Char) : List Char :=
  (((s.map replChar).filter (fun c => 32 ≤ c.toNat)).take 32767)

/-- `clean_excel_value` (src/app.py lines 18-31): non-strings pass through
unchanged, strings are cleaned by `cleanChars`. -/
def clean_excel_value (v : Value) : Value :=
  match v with
  | .vStr s => .vStr (cleanChars s)
  | _ => v

theorem replChar_idem (c : Char) : replChar (replChar c) = replChar c := by
  unfold replChar
  split_ifs <;> simp_all

theorem replChar_fix_of_mem_clean {s : List Char} {c : Char}
    (h : c ∈ cleanChars s) : replChar c = c := by
  unfold cleanChars at h
  have h1 := List.mem_of_mem_take h
  have h2 := List.mem_of_mem_filter h1
  rcases List.mem_map.mp h2 with ⟨d, _, rfl⟩
  exact replChar_idem d

theorem mem_clean_ge_32 {s : List Char} {c : Char}
    (h : c ∈ cleanChars s) : 32 ≤ c.toNat := by
  unfold cleanChars at h
  have h1 := List.mem_of_mem_take h
  have := List.of_mem_filter h1
  simpa using this

theorem cleanChars_idem (s : List Char) : cleanChars (cleanChars s) = cleanChars s := by
  have hmap : (cleanChars s).map replChar = cleanChars s := by
    have := List.map_congr_left (l := cleanChars s)
      (f := replChar) (g := id) (fun a ha => replChar_fix_of_mem_clean ha)
    simpa using this
  have hfilter : (cleanChars s).filter (fun c => 32 ≤ c.toNat) = cleanChars s := by
    rw [List.filter_eq_self]
    intro a ha
    simpa using mem_clean_ge_32 ha
  have hlen : (cleanChars s).length ≤ 32767 := by
    unfold cleanChars
    have := List.length_take 32767
      (((s.map replChar).filter (fun c => 32 ≤ c.toNat)))
    omega
  have hdef : cleanChars (cleanChars s) =
      (((cleanChars s).map replChar).filter (fun c => 32 ≤ c.toNat)).take 32767 := rfl
  rw [hdef, hmap, hfilter, List.take_of_length_le hlen]

theorem cleanChars_length (s : List Char) : (cleanChars s).length ≤ 32767 := by
  unfold cleanChars
  have := List.length_take 32767
    (((s.map replChar).filter (fun c => 32 ≤ c.toNat)))
  omega

theorem cleanChars_no_fullwidth {s : List Char} {c : Char} (h : c ∈ cleanChars s) :
    c ≠ '（' ∧ c ≠ '）' := by
  have hfix := replChar_fix_of_mem_clean h
  constructor
  · rintro rfl
    simp [replChar] at hfix
  · rintro rfl
    simp [replChar] at hfix

/-- C1: the Value Sanitizer is idempotent, its string output has length at
most 32767, contains no character with code point below 32 and no full-width
parenthesis, and non-string inputs pass through unchanged. -/
theorem c1_sanitizer_properties :
    (∀ v : Value, clean_excel_value (clean_excel_value v) = clean_excel_value v) ∧
    (∀ s : List Char, (cleanChars s).length ≤ 32767) ∧
    (∀ (s : List Char) (c : Char), c ∈ cleanChars s →
      32 ≤ c.toNat ∧ c ≠ '（' ∧ c ≠ '）') ∧
    (∀ v : Value, (∀ s, v ≠ .vStr s) → clean_excel_value v = v) := by
  refine ⟨?_, cleanChars_length, ?_, ?_⟩
  · intro v
    cases v with
    | vStr s => simp [clean_excel_value, cleanChars_idem]
    | vInt n => rfl
    | vNone => rfl
  · intro s c h
    exact ⟨mem_clean_ge_32 h, cleanChars_no_fullwidth h⟩
  · intro v hv
    cases v with
    | vStr s => exact absurd rfl (hv s)
    | vInt n => rfl
    | vNone => rfl

/-- Witness for C1 at a concrete input containing a control character, a
full-width parenthesis, and a newline. -/
theorem c1_sanitizer_properties_witness :
    clean_excel_value (clean_excel_value (.vStr ('（' :: '\t' :: 'a' :: '\n' :: []))) =
      clean_excel_value (.vStr ('（' :: '\t' :: 'a' :: '\n' :: [])) ∧
    (cleanChars ('（' :: '\t' :: 'a' :: '\n' :: [])).length ≤ 32767 ∧
    ('(' ∈ cleanChars ('（' :: '\t' :: 'a' :: '\n' :: []) →
      32 ≤ '('.toNat ∧ '(' ≠ '（' ∧ '(' ≠ '）') ∧
    clean_excel_value (.vInt 7) = .vInt 7 := by
  refine ⟨c1_sanitizer_properties.1 _, c1_sanitizer_properties.2.1 _,
    c1_sanitizer_properties.2.2.1 _ _, c1_sanitizer_properties.2.2.2 _ ?_⟩
  intro s
  simp

/-- ASCII decimal digit test, as used by the model of CPython `int()`. -/
def isPyDigit (c : Char) : Bool := 48 ≤ c.toNat && c.toNat ≤ 57

/-- ASCII whitespace test (space, tab, newline, carriage return, vertical
tab, form feed — code points 32, 9, 10, 13, 11, 12), the characters `int()`
strips from both ends. -/
def isPySpace (c : Char) : Bool :=
  c.toNat = 32 || c.toNat = 9 || c.toNat = 10 || c.toNat = 13 ||
    c.toNat = 11 || c.toNat = 12

/-- Strip whitespace from both ends of a string. -/
def stripWS (s : List Char) : List Char :=
  ((s.dropWhile isPySpace).reverse.dropWhile isPySpace).reverse

/-- Value of a big-endian ASCII digit string. -/
def digitsVal (l : List Char) : Nat :=
  l.foldl (fun a c => a * 10 + (c.toNat - 48)) 0

/-- Model of CPython `int(s)` on a `str` argument, restricted to ASCII
decimal literals: surrounding whitespace is stripped, an optional single
sign is allowed, and the remainder must be a nonempty run of ASCII digits
(underscore separators and non-ASCII digits are outside the model).
`none` models `ValueError`. -/
def pyInt? (s : List Char) : Option Int :=
  match stripWS s with
  | [] => none
  | c :: rest =>
    if c = '+' then
      if !rest.isEmpty && rest.all isPyDigit then some ((digitsVal rest : Int)) else none
    else if c = '-' then
      if !rest.isEmpty && rest.all isPyDigit then some (-(digitsVal rest : Int)) else none
    else
      if (c :: rest).all isPyDigit then some ((digitsVal (c :: rest) : Int)) else none

/-- ASCII character of a single decimal digit. -/
def digitCh (d : Nat) : Char :=
  if d = 0 then '0' else if d = 1 then '1' else if d = 2 then '2'
  else if d = 3 then '3' else if d = 4 then '4' else if d = 5 then '5'
  else if d = 6 then '6' else if d = 7 then '7' else if d = 8 then '8' else '9'

/-- Decimal character string of a natural number (`str(n)` for `n ≥ 0`). -/
def natChars (n : Nat) : List Char :=
  if n = 0 then ['0']
  else ((Nat.digits 10 n).map digitCh).reverse

/-- Decimal character string of an integer (`str(n)`). -/
def intChars (n : Int) : List Char :=
  if n < 0 then '-' :: natChars n.natAbs else natChars n.toNat

/-- Python `str(value)` for the modelled scalar values. -/
def pyStr (v : Value) : List Char :=
  match v with
  | .vStr s => s
  | .vInt n => intChars n
  | .vNone => "None".toList

/-- Python `s.split('"')`: the list of maximal quote-free segments, one more
segment than there are quote characters. -/
def splitOnQuote : List Char → List (List Char)
  | [] => [[]]
  | c :: cs =>
    if c = '"' then [] :: splitOnQuote cs
    else
      match splitOnQuote cs with
      | [] => [[c]]
      | g :: gs => (c :: g) :: gs

/-- `extract_id_from_hyperlink` (src/app.py lines 46-55): on a string
starting with `=HYPERLINK`, take the fourth quote-delimited segment
(`value.split('"')[3]`) and convert it with `int`; on `IndexError` (fewer
than four quote segments, modelled by `get? 3 = none`) or `ValueError`
(`pyInt? = none`) return the original value; non-strings and strings
without the prefix are returned unchanged. -/
def extract_id_from_hyperlink (v : Value) : Value :=
  match v with
  | .vStr s =>
    if "=HYPERLINK".toList.isPrefixOf s then
      match (splitOnQuote s).get? 3 with
      | none => v
      | some seg =>
        match pyInt? seg with
        | none => v
        | some n => .vInt n
    else v
  | _ => v

theorem splitOnQuote_ne_nil (s : List Char) : splitOnQuote s ≠ [] := by
  induction s with
  | nil => simp [splitOnQuote]
  | cons c cs ih =>
    simp only [splitOnQuote]
    split_ifs
    · simp
    · cases h : splitOnQuote cs with
      | nil => simp
      | cons g gs => simp

theorem splitOnQuote_quote_cons (s : List Char) :
    splitOnQuote ('"' :: s) = [] :: splitOnQuote s := by
  simp [splitOnQuote]

theorem splitOnQuote_append {a : List Char} (b : List Char)
    (ha : ∀ c ∈ a, c ≠ '"') {g : List Char} {gs : List (List Char)}
    (hb : splitOnQuote b = g :: gs) :
    splitOnQuote (a ++ b) = (a ++ g) :: gs := by
  induction a with
  | nil => simpa using hb
  | cons c cs ih =>
    have hc : c ≠ '"' := ha c (by simp)
    have hcs : ∀ x ∈ cs, x ≠ '"' := fun x hx => ha x (by simp [hx])
    show splitOnQuote (c :: (cs ++ b)) = (c :: (cs ++ g)) :: gs
    rw [splitOnQuote, if_neg hc, ih hcs]

/-- The exact shape `=HYPERLINK("u"SEP"t")` of a hyperlink formula with two
quoted arguments; the separator between the arguments is `,` in the
documented form and `, ` in the formulas the program itself writes. -/
def linkForm (u sep t : List Char) : List Char :=
  '=' :: 'H' :: 'Y' :: 'P' :: 'E' :: 'R' :: 'L' :: 'I' :: 'N' :: 'K' :: '(' :: '"' ::
    (u ++ '"' :: (sep ++ '"' :: (t ++ '"' :: ')' :: [])))

theorem splitOnQuote_linkForm {u sep t : List Char}
    (hu : ∀ c ∈ u, c ≠ '"') (hsep : ∀ c ∈ sep, c ≠ '"') (ht : ∀ c ∈ t, c ≠ '"') :
    splitOnQuote (linkForm u sep t) =
      ["=HYPERLINK(".toList, u, sep, t, [')']] := by
  have h4 : splitOnQuote ('"' :: ')' :: []) = [[], [')']] := by decide
  have h3 : splitOnQuote (t ++ '"' :: ')' :: []) = (t ++ []) :: [[')']] :=
    splitOnQuote_append _ ht h4
  rw [List.append_nil] at h3
  have h2 : splitOnQuote ('"' :: (t ++ '"' :: ')' :: [])) =
      [] :: t :: [[')']] := by
    rw [splitOnQuote_quote_cons, h3]
  have h1 : splitOnQuote (sep ++ '"' :: (t ++ '"' :: ')' :: [])) =
      (sep ++ []) :: t :: [[')']] := splitOnQuote_append _ hsep h2
  rw [List.append_nil] at h1
  have h0 : splitOnQuote ('"' :: (sep ++ '"' :: (t ++ '"' :: ')' :: []))) =
      [] :: sep :: t :: [[')']] := by
    rw [splitOnQuote_quote_cons, h1]
  have hu' : splitOnQuote (u ++ '"' :: (sep ++ '"' :: (t ++ '"' :: ')' :: []))) =
      (u ++ []) :: sep :: t :: [[')']] := splitOnQuote_append _ hu h0
  rw [List.append_nil] at hu'
  show splitOnQuote ("=HYPERLINK(".toList ++
      ('"' :: (u ++ '"' :: (sep ++ '"' :: (t ++ '"' :: ')' :: []))))) = _
  rw [splitOnQuote_append ('"' :: (u ++ '"' :: (sep ++ '"' :: (t ++ '"' :: ')' :: []))))
    (by decide) (by rw [splitOnQuote_quote_cons, hu'])]
  simp

theorem isPrefixOf_linkForm (u sep t : List Char) :
    "=HYPERLINK".toList.isPrefixOf (linkForm u sep t) = true := rfl

theorem extract_vStr (s : List Char) :
    extract_id_from_hyperlink (.vStr s) =
      if "=HYPERLINK".toList.isPrefixOf s then
        match (splitOnQuote s).get? 3 with
        | none => .vStr s
        | some seg =>
          match pyInt? seg with
          | none => .vStr s
          | some n => .vInt n
      else .vStr s := rfl

theorem extract_linkForm {u sep t : List Char}
    (hu : ∀ c ∈ u, c ≠ '"') (hsep : ∀ c ∈ sep, c ≠ '"') (ht : ∀ c ∈ t, c ≠ '"') :
    extract_id_from_hyperlink (.vStr (linkForm u sep t)) =
      match pyInt? t with
      | some n => .vInt n
      | none => .vStr (linkForm u sep t) := by
  rw [extract_vStr, splitOnQuote_linkForm hu hsep ht, isPrefixOf_linkForm, if_pos rfl]
  show (match (["=HYPERLINK(".toList, u, sep, t, [')']].get? 3 : Option (List Char)) with
    | none => Value.vStr (linkForm u sep t)
    | some seg =>
      match pyInt? seg with
      | none => Value.vStr (linkForm u sep t)
      | some n => Value.vInt n) = _
  have hget : (["=HYPERLINK(".toList, u, sep, t, [')']].get? 3 : Option (List Char)) =
    some t := rfl
  rw [hget]
  cases h : pyInt? t <;> simp [h]

/-- Definition following the claim's words: a string is of the documented
form `=HYPERLINK("u","t")` (two quoted arguments, separated by a comma with
an optional trailing space) precisely when its quote-segments are
`=HYPERLINK(`, then `u`, then the separator, then `t`, then `)`. -/
def isClaimLinkForm (s : List Char) : Bool :=
  match splitOnQuote s with
  | [a, _, c, _, e] =>
    a == "=HYPERLINK(".toList && (c == ",".toList || c == ", ".toList) && e == ")".toList
  | _ => false

theorem linkForm_isClaimLinkForm {u sep t : List Char}
    (hu : ∀ c ∈ u, c ≠ '"') (ht : ∀ c ∈ t, c ≠ '"')
    (hsep : sep = ",".toList ∨ sep = ", ".toList) :
    isClaimLinkForm (linkForm u sep t) = true := by
  have hsep' : ∀ c ∈ sep, c ≠ '"' := by
    rcases hsep with rfl | rfl <;> decide
  unfold isClaimLinkForm
  rw [splitOnQuote_linkForm hu hsep' ht]
  rcases hsep with rfl | rfl <;> simp

/-- C2 counterexample: the string `=HYPERLINKx"a"b"7"` is not of the form
`=HYPERLINK("u","t")` (its quote-segments do not match the documented
shape), yet the ID extractor does not return it unchanged: it returns the
integer 7, because the code only tests the `=HYPERLINK` prefix and then
takes whatever the fourth quote-segment is. -/
theorem c2_extractor_counterexample :
    isClaimLinkForm ('=' :: 'H' :: 'Y' :: 'P' :: 'E' :: 'R' :: 'L' :: 'I' :: 'N' ::
      'K' :: 'x' :: '"' :: 'a' :: '"' :: 'b' :: '"' :: '7' :: '"' :: []) = false ∧
    extract_id_from_hyperlink (.vStr ('=' :: 'H' :: 'Y' :: 'P' :: 'E' :: 'R' :: 'L' ::
      'I' :: 'N' :: 'K' :: 'x' :: '"' :: 'a' :: '"' :: 'b' :: '"' :: '7' :: '"' :: [])) =
      .vInt 7 ∧
    Value.vInt 7 ≠ .vStr ('=' :: 'H' :: 'Y' :: 'P' :: 'E' :: 'R' :: 'L' ::
      'I' :: 'N' :: 'K' :: 'x' :: '"' :: 'a' :: '"' :: 'b' :: '"' :: '7' :: '"' :: []) := by
  refine ⟨by decide, by decide, by decide⟩

/-- C2 (amended): a cell of the documented form `=HYPERLINK("u","t")` with
integer display text `t` yields that integer, and with non-integer `t` is
returned unchanged; a string not starting with `=HYPERLINK`, a string with
fewer than four quote-delimited segments, a string whose fourth
quote-segment does not parse as an integer, and any non-string value are
all returned unchanged; any `=HYPERLINK`-prefixed string whose fourth
quote-segment parses as an integer yields that integer (the code never
raises: both error paths fall back to the input). -/
theorem c2_extractor_amended :
    (∀ (u sep t : List Char) (n : Int),
      (∀ c ∈ u, c ≠ '"') → (∀ c ∈ sep, c ≠ '"') → (∀ c ∈ t, c ≠ '"') →
      pyInt? t = some n →
      extract_id_from_hyperlink (.vStr (linkForm u sep t)) = .vInt n) ∧
    (∀ (u sep t : List Char),
      (∀ c ∈ u, c ≠ '"') → (∀ c ∈ sep, c ≠ '"') → (∀ c ∈ t, c ≠ '"') →
      pyInt? t = none →
      extract_id_from_hyperlink (.vStr (linkForm u sep t)) = .vStr (linkForm u sep t)) ∧
    (∀ s : List Char, "=HYPERLINK".toList.isPrefixOf s = false →
      extract_id_from_hyperlink (.vStr s) = .vStr s) ∧
    (∀ s : List Char, (splitOnQuote s).get? 3 = none →
      extract_id_from_hyperlink (.vStr s) = .vStr s) ∧
    (∀ (s seg : List Char), (splitOnQuote s).get? 3 = some seg → pyInt? seg = none →
      extract_id_from_hyperlink (.vStr s) = .vStr s) ∧
    (∀ (s seg : List Char) (n : Int), "=HYPERLINK".toList.isPrefixOf s = true →
      (splitOnQuote s).get? 3 = some seg → pyInt? seg = some n →
      extract_id_from_hyperlink (.vStr s) = .vInt n) ∧
    (∀ v : Value, (∀ s, v ≠ .vStr s) → extract_id_from_hyperlink v = v) := by
  refine ⟨?_, ?_, ?_, ?_, ?_, ?_, ?_⟩
  · intro u sep t n hu hsep ht hn
    rw [extract_linkForm hu hsep ht, hn]
  · intro u sep t hu hsep ht hn
    rw [extract_linkForm hu hsep ht, hn]
  · intro s hp
    rw [extract_vStr, hp]
    simp
  · intro s hg
    rw [extract_vStr, hg]
    split <;> rfl
  · intro s seg hg hn
    rw [extract_vStr, hg]
    simp [hn]
  · intro s seg n hp hg hn
    rw [extract_vStr, hp, hg]
    simp [hn]
  · intro v hv
    cases v with
    | vStr s => exact absurd rfl (hv s)
    | vInt n => rfl
    | vNone => rfl

/-- Witness for C2 instantiating every part of the amended theorem at
concrete inputs. -/
theorem c2_extractor_amended_witness :
    extract_id_from_hyperlink (.vStr (linkForm ('u' :: []) (',' :: []) ('1' :: '2' :: []))) =
      .vInt 12 ∧
    extract_id_from_hyperlink (.vStr (linkForm ('u' :: []) (',' :: []) ('t' :: []))) =
      .vStr (linkForm ('u' :: []) (',' :: []) ('t' :: [])) ∧
    extract_id_from_hyperlink (.vStr ('a' :: 'b' :: [])) = .vStr ('a' :: 'b' :: []) ∧
    extract_id_from_hyperlink (.vStr "=HYPERLINK".toList) = .vStr "=HYPERLINK".toList ∧
    extract_id_from_hyperlink (.vInt 5) = .vInt 5 := by
  refine ⟨c2_extractor_amended.1 _ _ _ 12 (by decide) (by decide) (by decide) (by decide),
    c2_extractor_amended.2.1 _ _ _ (by decide) (by decide) (by decide) (by decide),
    c2_extractor_amended.2.2.1 _ (by decide),
    c2_extractor_amended.2.2.2.1 _ (by decide),
    c2_extractor_amended.2.2.2.2.2.2 _ ?_⟩
  intro s
  simp


theorem dropWhile_eq_self_of_all {p : Char → Bool} {l : List Char}
    (h : ∀ c ∈ l, p c = false) : l.dropWhile p = l := by
  cases l with
  | nil => rfl
  | cons c cs =>
    rw [List.dropWhile_cons, h c (by simp)]
    simp

theorem stripWS_eq_self {l : List Char} (h : ∀ c ∈ l, isPySpace c = false) :
    stripWS l = l := by
  unfold stripWS
  rw [dropWhile_eq_self_of_all h,
    dropWhile_eq_self_of_all (fun c hc => h c (List.mem_reverse.mp hc)),
    List.reverse_reverse]

theorem isPyDigit_not_space {c : Char} (h : isPyDigit c = true) :
    isPySpace c = false := by
  simp only [isPyDigit, Bool.and_eq_true, decide_eq_true_eq] at h
  simp only [isPySpace, Bool.or_eq_false_iff, decide_eq_false_iff_not]
  omega

theorem pyInt?_cons_eq {s : List Char} {c : Char} {rest : List Char}
    (h : stripWS s = c :: rest) :
    pyInt? s =
      if c = '+' then
        (if !rest.isEmpty && rest.all isPyDigit then some ((digitsVal rest : Int))
         else none)
      else if c = '-' then
        (if !rest.isEmpty && rest.all isPyDigit then some (-(digitsVal rest : Int))
         else none)
      else
        (if (c :: rest).all isPyDigit then some ((digitsVal (c :: rest) : Int))
         else none) := by
  unfold pyInt?
  rw [h]

theorem pyInt?_all_digits {s : List Char} (hne : s ≠ [])
    (hall : s.all isPyDigit = true) : pyInt? s = some ((digitsVal s : Int)) := by
  cases s with
  | nil => exact absurd rfl hne
  | cons c rest =>
    have hstrip : stripWS (c :: rest) = c :: rest := by
      refine stripWS_eq_self ?_
      intro x hx
      exact isPyDigit_not_space (by
        rw [List.all_eq_true] at hall
        exact hall x hx)
    have hc : isPyDigit c = true := by
      rw [List.all_eq_true] at hall
      exact hall c (by simp)
    have hc' : 48 ≤ c.toNat ∧ c.toNat ≤ 57 := by
      simpa [isPyDigit] using hc
    have hplus : c ≠ '+' := by
      intro h
      subst h
      revert hc
      decide
    have hminus : c ≠ '-' := by
      intro h
      subst h
      revert hc
      decide
    rw [pyInt?_cons_eq hstrip, if_neg hplus, if_neg hminus, if_pos hall]

theorem digitsVal_append_one (l : List Char) (c : Char) :
    digitsVal (l ++ [c]) = digitsVal l * 10 + (c.toNat - 48) := by
  unfold digitsVal
  rw [List.foldl_append]
  rfl

theorem digitCh_toNat {d : Nat} (h : d < 10) : (digitCh d).toNat = 48 + d := by
  interval_cases d <;> rfl

theorem digitCh_isPyDigit {d : Nat} (h : d < 10) : isPyDigit (digitCh d) = true := by
  interval_cases d <;> rfl

theorem digitsVal_rev_map (L : List Nat) (h : ∀ d ∈ L, d < 10) :
    digitsVal ((L.map digitCh).reverse) = Nat.ofDigits 10 L := by
  induction L with
  | nil => rfl
  | cons d L ih =>
    have hd : d < 10 := h d (by simp)
    have htl : ∀ x ∈ L, x < 10 := fun x hx => h x (by simp [hx])
    rw [List.map_cons, List.reverse_cons, digitsVal_append_one, ih htl,
      digitCh_toNat hd, Nat.ofDigits_cons]
    omega

theorem natChars_all_digits (n : Nat) : (natChars n).all isPyDigit = true := by
  unfold natChars
  split_ifs
  · decide
  · rw [List.all_eq_true]
    intro c hc
    rw [List.mem_reverse, List.mem_map] at hc
    rcases hc with ⟨d, hd, rfl⟩
    exact digitCh_isPyDigit (Nat.digits_lt_base (by norm_num) hd)

theorem natChars_ne_nil (n : Nat) : natChars n ≠ [] := by
  unfold natChars
  split_ifs with h
  · simp
  · simp only [ne_eq, List.reverse_eq_nil_iff, List.map_eq_nil_iff]
    exact Nat.digits_ne_nil_iff_ne_zero.mpr h

theorem digitsVal_natChars (n : Nat) : digitsVal (natChars n) = n := by
  unfold natChars
  split_ifs with h
  · subst h
    rfl
  · rw [digitsVal_rev_map _ (fun d hd => Nat.digits_lt_base (by norm_num) hd),
      Nat.ofDigits_digits]

theorem pyInt?_natChars (n : Nat) : pyInt? (natChars n) = some ((n : Int)) := by
  rw [pyInt?_all_digits (natChars_ne_nil n) (natChars_all_digits n), digitsVal_natChars]

theorem natChars_isEmpty (n : Nat) : (natChars n).isEmpty = false := by
  cases h : natChars n with
  | nil => exact absurd h (natChars_ne_nil n)
  | cons c cs => rfl

theorem pyInt?_intChars (n : Int) : pyInt? (intChars n) = some n := by
  unfold intChars
  split_ifs with h
  · have hall := natChars_all_digits n.natAbs
    have hstrip : stripWS ('-' :: natChars n.natAbs) = '-' :: natChars n.natAbs := by
      refine stripWS_eq_self ?_
      intro x hx
      rcases List.mem_cons.mp hx with rfl | hx'
      · decide
      · exact isPyDigit_not_space (by
          rw [List.all_eq_true] at hall
          exact hall x hx')
    rw [pyInt?_cons_eq hstrip, if_neg (by decide : ¬('-' : Char) = '+'), if_pos rfl,
      if_pos (by rw [hall, natChars_isEmpty]; rfl), digitsVal_natChars]
    congr 1
    omega
  · rw [pyInt?_natChars]
    congr 1
    omega

/-- Insertion step of a stable insertion sort: `a` is placed immediately
before the first element `b` with `le a b`.  When `le` holds between
key-equal elements, an element therefore never moves past one with an equal
key, which makes the sort stable. -/
def insertLe {α : Type} (le : α → α → Bool) (a : α) : List α → List α
  | [] => [a]
  | b :: l => if le a b then a :: b :: l else b :: insertLe le a l

/-- Stable sort by insertion.  This models a stable sort by the key order
`le`: both the pandas multi-column `sort_values` (numpy `lexsort`, used at
src/app.py line 221) and Python `list.sort` (used at line 473) are stable
sorts, and any two stable sorts by the same key agree. -/
def sortLe {α : Type} (le : α → α → Bool) : List α → List α
  | [] => []
  | a :: l => insertLe le a (sortLe le l)

theorem insertLe_perm {α : Type} (le : α → α → Bool) (a : α) (l : List α) :
    List.Perm (insertLe le a l) (a :: l) := by
  induction l with
  | nil => exact List.Perm.refl _
  | cons b l ih =>
    simp only [insertLe]
    split_ifs
    · exact List.Perm.refl _
    · exact ((ih.cons b).trans (List.Perm.swap a b l))

theorem sortLe_perm {α : Type} (le : α → α → Bool) (l : List α) :
    List.Perm (sortLe le l) l := by
  induction l with
  | nil => exact List.Perm.refl _
  | cons a l ih =>
    exact (insertLe_perm le a (sortLe le l)).trans (ih.cons a)

theorem insertLe_filter {α β : Type} [DecidableEq β] (le : α → α → Bool)
    (κ : α → β) (H : ∀ a b, κ a = κ b → le a b = true) (a : α) (l : List α)
    (k : β) :
    (insertLe le a l).filter (fun x => decide (κ x = k)) =
      if κ a = k then a :: l.filter (fun x => decide (κ x = k))
      else l.filter (fun x => decide (κ x = k)) := by
  induction l with
  | nil =>
    simp only [insertLe, List.filter]
    split_ifs with h <;> simp [h]
  | cons b l ih =>
    by_cases hle : le a b = true
    · simp only [insertLe, if_pos hle]
      by_cases hk : κ a = k
      · simp [List.filter_cons, hk]
      · simp [List.filter_cons, hk]
    · have hab : κ a ≠ κ b := fun he => hle (H a b he)
      simp only [insertLe, if_neg hle]
      by_cases hk : κ a = k
      · have hbk : ¬(κ b = k) := fun hb => hab (hk.trans hb.symm)
        simp [List.filter_cons, hbk, ih, hk]
      · simp [List.filter_cons, ih, hk]

theorem sortLe_filter {α β : Type} [DecidableEq β] (le : α → α → Bool)
    (κ : α → β) (H : ∀ a b, κ a = κ b → le a b = true) (l : List α) (k : β) :
    (sortLe le l).filter (fun x => decide (κ x = k)) =
      l.filter (fun x => decide (κ x = k)) := by
  induction l with
  | nil => rfl
  | cons a l ih =>
    simp only [sortLe]
    rw [insertLe_filter le κ H, ih, List.filter_cons]
    split_ifs with h h' h' <;> simp_all

theorem mem_insertLe {α : Type} {le : α → α → Bool} {a x : α} {l : List α}
    (h : x ∈ insertLe le a l) : x = a ∨ x ∈ l :=
  List.mem_cons.mp ((insertLe_perm le a l).mem_iff.mp h)

theorem insertLe_pairwise {α : Type} {le : α → α → Bool}
    (htot : ∀ a b, le a b = true ∨ le b a = true)
    (htr : ∀ a b c, le a b = true → le b c = true → le a c = true)
    {a : α} {l : List α} (h : l.Pairwise (fun x y => le x y = true)) :
    (insertLe le a l).Pairwise (fun x y => le x y = true) := by
  induction l with
  | nil => simp [insertLe]
  | cons b l ih =>
    rcases h with _ | ⟨hb, hl⟩
    simp only [insertLe]
    split_ifs with hle
    · refine List.Pairwise.cons ?_ (List.Pairwise.cons hb hl)
      intro x hx
      rcases List.mem_cons.mp hx with rfl | hx'
      · exact hle
      · exact htr a b x hle (hb x hx')
    · have hba : le b a = true := by
        rcases htot a b with h' | h'
        · exact absurd h' hle
        · exact h'
      refine List.Pairwise.cons ?_ (ih hl)
      intro x hx
      rcases mem_insertLe hx with rfl | hx'
      · exact hba
      · exact hb x hx'

theorem sortLe_pairwise {α : Type} {le : α → α → Bool}
    (htot : ∀ a b, le a b = true ∨ le b a = true)
    (htr : ∀ a b c, le a b = true → le b c = true → le a c = true)
    (l : List α) :
    (sortLe le l).Pairwise (fun x y => le x y = true) := by
  induction l with
  | nil => simp [sortLe]
  | cons a l ih => exact insertLe_pairwise htot htr ih

/-- One row of the flat application dataset (院校申请列表.csv) after the
load-time processing of src/app.py lines 100-146: `clientId` is `客户id`
(`none` models NaN), `name` is `姓名` (`none` models NaN), `status` is
`申请结果`, and `deadline` is the parsed `押金截止日期` as a day number
(`none` models a missing or unparseable date, which `parse_date` maps to
`None`). -/
structure Record where
  clientId : Option Int
  name : Option (List Char)
  school : List Char
  program : List Char
  status : List Char
  deadline : Option Int
deriving DecidableEq, Repr

/-- The `result_priority` table (src/app.py lines 209-215) together with
the `result_priority.get(x, 6)` fallback for unmapped statuses (line 218). -/
def result_priority (status : List Char) : Nat :=
  if status = "获得CAS/COE".toList then 1
  else if status = "获得UO".toList then 2
  else if status = "获得CO".toList then 3
  else if status = "拒信".toList then 4
  else if status = "大学撤销".toList then 5
  else 6

/-- Code-point lexicographic strict order on strings (Python `<` on `str`). -/
def strLt : List Char → List Char → Bool
  | [], [] => false
  | [], _ :: _ => true
  | _ :: _, [] => false
  | a :: as, b :: bs =>
    if a.toNat < b.toNat then true
    else if a.toNat = b.toNat then strLt as bs
    else false

/-- The sort key order of src/app.py line 221
(`sort_values(['sort_key', '申请结果'])`): compare the priority rank first
and the status string second, non-strictly. -/
def recLe (a b : Record) : Bool :=
  if result_priority a.status < result_priority b.status then true
  else if result_priority a.status = result_priority b.status then
    (strLt a.status b.status || a.status == b.status)
  else false

/-- The within-group record sort of src/app.py lines 218-224, as a stable
sort by `recLe`. -/
def sortRecords (g : List Record) : List Record := sortLe recLe g

theorem recLe_of_key_eq (a b : Record)
    (h : (result_priority a.status, a.status) = (result_priority b.status, b.status)) :
    recLe a b = true := by
  rw [Prod.mk.injEq] at h
  unfold recLe
  rw [h.2, if_neg (lt_irrefl _), if_pos rfl]
  simp

/-- C4: the within-group ranking is stable for ties.  Stability is stated
in the standard way: for every value `k` of the sort key
`(priorityRank, resultStatus)` — with `priorityRank` given by the fixed
`result_priority` table and rank 6 for unmapped statuses — the subsequence
of records whose key equals `k` is exactly the same (same records, same
relative order) before and after sorting. -/
theorem c4_ranking_stable (g : List Record) (k : Nat × List Char) :
    (sortRecords g).filter
      (fun r => decide ((result_priority r.status, r.status) = k)) =
    g.filter (fun r => decide ((result_priority r.status, r.status) = k)) :=
  sortLe_filter recLe (fun r => (result_priority r.status, r.status))
    recLe_of_key_eq g k

/-- Witness for C4: two distinct records tied on `(rank, status)` (both
`拒信`, rank 4) keep their original order across the sort, while a
higher-priority `获得UO` record moves before them. -/
theorem c4_ranking_stable_witness :
    (sortRecords
        [⟨some 1, some ('A' :: []), [], [], "拒信".toList, none⟩,
         ⟨some 1, some ('B' :: []), [], [], "拒信".toList, none⟩,
         ⟨some 1, some ('C' :: []), [], [], "获得UO".toList, none⟩]).filter
      (fun r => decide ((result_priority r.status, r.status) =
        (4, "拒信".toList))) =
    ([⟨some 1, some ('A' :: []), [], [], "拒信".toList, none⟩,
      ⟨some 1, some ('B' :: []), [], [], "拒信".toList, none⟩,
      ⟨some 1, some ('C' :: []), [], [], "获得UO".toList, none⟩] :
        List Record).filter
      (fun r => decide ((result_priority r.status, r.status) =
        (4, "拒信".toList))) :=
  c4_ranking_stable _ _

/-- pandas `==` against a scalar taken from `unique()` (src/app.py line
206): two ids compare equal only when both are actual values and equal; a
NaN id (`none`) never compares equal, so the NaN group is always empty and
skipped. -/
def idEq (a b : Option Int) : Bool :=
  match a, b with
  | some x, some y => x == y
  | _, _ => false

/-- pandas `Series.unique()` (src/app.py line 200): the distinct values of
the id column in first-appearance order. -/
def uniqueFirst {α : Type} [DecidableEq α] : List α → List α
  | [] => []
  | a :: l => a :: uniqueFirst (l.filter (fun x => decide (x ≠ a)))
termination_by l => l.length
decreasing_by
  exact Nat.lt_succ_of_le (List.length_filter_le _ _)

/-- Record Grouper (src/app.py lines 200-234): one candidate group per
distinct `客户id` in first-appearance order, holding the records whose id
compares equal to the key (`template_df[template_df['客户id'] == client_id]`);
groups with no records are skipped (`if len(client_data) == 0: continue`). -/
def groupByClient (rs : List Record) : List (Option Int × List Record) :=
  ((uniqueFirst (rs.map Record.clientId)).map
    (fun k => (k, rs.filter (fun r => idEq r.clientId k)))).filter
    (fun g => !g.2.isEmpty)

/-- Index of the first occurrence of `x` in `l` (length of `l` when absent). -/
def firstIdx {α : Type} [DecidableEq α] (l : List α) (x : α) : Nat :=
  match l with
  | [] => 0
  | b :: l => if x = b then 0 else firstIdx l x + 1

theorem firstIdx_cons {α : Type} [DecidableEq α] (b : α) (l : List α) (x : α) :
    firstIdx (b :: l) x = if x = b then 0 else firstIdx l x + 1 := rfl

theorem mem_uniqueFirst {α : Type} [DecidableEq α] (l : List α) (x : α) :
    x ∈ uniqueFirst l ↔ x ∈ l := by
  induction l using uniqueFirst.induct with
  | case1 => simp [uniqueFirst]
  | case2 a l ih =>
    rw [uniqueFirst]
    simp only [List.mem_cons]
    rw [ih]
    simp only [List.mem_filter, decide_eq_true_eq]
    constructor
    · rintro (rfl | ⟨h1, _⟩)
      · exact Or.inl rfl
      · exact Or.inr h1
    · rintro (rfl | h1)
      · exact Or.inl rfl
      · by_cases hx : x = a
        · exact Or.inl hx
        · exact Or.inr ⟨h1, by simpa using hx⟩

theorem uniqueFirst_nodup {α : Type} [DecidableEq α] (l : List α) :
    (uniqueFirst l).Nodup := by
  induction l using uniqueFirst.induct with
  | case1 => simp [uniqueFirst]
  | case2 a l ih =>
    rw [uniqueFirst]
    refine List.Nodup.cons ?_ ih
    intro hmem
    have := (mem_uniqueFirst _ _).mp hmem
    have := List.of_mem_filter this
    simp at this

theorem firstIdx_filter_mono {α : Type} [DecidableEq α] {p : α → Bool}
    {b c : α} (hb : p b = true) (hc : p c = true) :
    ∀ {l : List α}, firstIdx (l.filter p) b < firstIdx (l.filter p) c →
      firstIdx l b < firstIdx l c := by
  intro l
  induction l with
  | nil =>
    intro h
    simpa [firstIdx] using h
  | cons x l ih =>
    intro h
    by_cases hpx : p x = true
    · rw [List.filter_cons_of_pos hpx] at h
      simp only [firstIdx_cons] at h ⊢
      split_ifs at h ⊢
      all_goals try omega
      all_goals (have hm := ih (by omega)
                 omega)
    · have hbx : b ≠ x := fun he => hpx (he ▸ hb)
      have hcx : c ≠ x := fun he => hpx (he ▸ hc)
      rw [List.filter_cons_of_neg (by simpa using hpx)] at h
      simp only [firstIdx_cons, if_neg hbx, if_neg hcx]
      have := ih h
      omega

theorem uniqueFirst_pairwise_firstIdx {α : Type} [DecidableEq α] (l : List α) :
    (uniqueFirst l).Pairwise (fun a b => firstIdx l a < firstIdx l b) := by
  induction l using uniqueFirst.induct with
  | case1 => simp [uniqueFirst]
  | case2 a l ih =>
    rw [uniqueFirst]
    refine List.Pairwise.cons ?_ ?_
    · intro b hb
      have hbmem := (mem_uniqueFirst _ _).mp hb
      have hbne : b ≠ a := by
        have := List.of_mem_filter hbmem
        simpa using this
      rw [firstIdx_cons, firstIdx_cons, if_pos rfl, if_neg hbne]
      omega
    · refine ih.imp_of_mem ?_
      intro x y hx hy hxy
      have hxm := (mem_uniqueFirst _ _).mp hx
      have hym := (mem_uniqueFirst _ _).mp hy
      have hpx := List.of_mem_filter hxm
      have hpy := List.of_mem_filter hym
      have hxa : x ≠ a := by simpa using hpx
      have hya : y ≠ a := by simpa using hpy
      have := firstIdx_filter_mono (p := fun z => decide (z ≠ a)) hpx hpy hxy
      rw [firstIdx_cons, firstIdx_cons, if_neg hxa, if_neg hya]
      omega

theorem groups_map_fst_sublist (rs : List Record) :
    List.Sublist ((groupByClient rs).map Prod.fst)
      (uniqueFirst (rs.map Record.clientId)) := by
  have h1 : List.Sublist (groupByClient rs)
      ((uniqueFirst (rs.map Record.clientId)).map
        (fun k => (k, rs.filter (fun r => idEq r.clientId k)))) :=
    List.filter_sublist _
  have h2 := h1.map Prod.fst
  rw [List.map_map] at h2
  rw [show (Prod.fst ∘ fun k => (k, List.filter (fun r => idEq r.clientId k) rs)) = id
    from rfl, List.map_id] at h2
  exact h2

/-- C3: the Record Grouper partitions the input records.  A record belongs
to some emitted group iff it is an input record with a non-null clientId;
no clientId keys two groups (the keys are pairwise distinct); the groups
appear in first-appearance order of their clientId in the input id column
(the first indices are strictly increasing along the group list); and no
emitted group is empty. -/
theorem c3_grouper_partition (rs : List Record) :
    (∀ r : Record,
      (∃ p ∈ groupByClient rs, r ∈ p.2) ↔ (r ∈ rs ∧ r.clientId ≠ none)) ∧
    ((groupByClient rs).map Prod.fst).Nodup ∧
    ((groupByClient rs).map Prod.fst).Pairwise
      (fun a b => firstIdx (rs.map Record.clientId) a <
        firstIdx (rs.map Record.clientId) b) ∧
    (∀ p ∈ groupByClient rs, p.2 ≠ []) := by
  refine ⟨?_, ?_, ?_, ?_⟩
  · intro r
    constructor
    · rintro ⟨p, hp, hr⟩
      have hp' := List.mem_of_mem_filter hp
      rcases List.mem_map.mp hp' with ⟨k, _, rfl⟩
      have hrs := (List.mem_filter.mp hr).1
      have hid := (List.mem_filter.mp hr).2
      refine ⟨hrs, ?_⟩
      cases hcid : r.clientId with
      | none =>
        rw [hcid] at hid
        cases k <;> simp [idEq] at hid
      | some x => simp
    · rintro ⟨hr, hcid⟩
      cases hx : r.clientId with
      | none => exact absurd hx hcid
      | some x =>
        have hrf : r ∈ rs.filter (fun r' => idEq r'.clientId (some x)) :=
          List.mem_filter.mpr ⟨hr, by simp [idEq, hx]⟩
        refine ⟨(some x, rs.filter (fun r' => idEq r'.clientId (some x))), ?_, hrf⟩
        rw [groupByClient, List.mem_filter]
        refine ⟨List.mem_map.mpr ⟨some x,
          (mem_uniqueFirst _ _).mpr (List.mem_map.mpr ⟨r, hr, hx⟩), rfl⟩, ?_⟩
        cases hl : rs.filter (fun r' => idEq r'.clientId (some x)) with
        | nil =>
          rw [hl] at hrf
          cases hrf
        | cons y ys => rfl
  · exact (uniqueFirst_nodup _).sublist (groups_map_fst_sublist rs)
  · exact List.Pairwise.sublist (groups_map_fst_sublist rs)
      (uniqueFirst_pairwise_firstIdx _)
  · intro p hp
    have := List.of_mem_filter hp
    intro hnil
    rw [hnil] at this
    simp at this

/-- Witness for C3: two records sharing id 1 and one with id 2 produce two
groups; the first record is found in an emitted group. -/
theorem c3_grouper_partition_witness :
    (⟨some 1, none, [], [], [], none⟩ : Record) ∈
        [⟨some 1, none, [], [], [], none⟩,
         ⟨some 2, none, [], [], [], none⟩,
         (⟨some 1, some ('Z' :: []), [], [], [], none⟩ : Record)] ∧
    (⟨some 1, none, [], [], [], none⟩ : Record).clientId ≠ none ∧
    (∃ p ∈ groupByClient
        [⟨some 1, none, [], [], [], none⟩,
         ⟨some 2, none, [], [], [], none⟩,
         ⟨some 1, some ('Z' :: []), [], [], [], none⟩],
      (⟨some 1, none, [], [], [], none⟩ : Record) ∈ p.2) :=
  ⟨by decide, by decide,
    ((c3_grouper_partition
        [⟨some 1, none, [], [], [], none⟩,
         ⟨some 2, none, [], [], [], none⟩,
         ⟨some 1, some ('Z' :: []), [], [], [], none⟩]).1
      ⟨some 1, none, [], [], [], none⟩).mpr ⟨by decide, by decide⟩⟩

/-- Placeholder client name `未知姓名` (src/app.py lines 228-230). -/
def placeholderName : List Char := "未知姓名".toList

/-- Client-name resolution (src/app.py lines 226-230): the code inspects
only the first row of the group, after the group has been sorted
(`client_data['姓名'].iloc[0]`), and falls back to the placeholder when that
single cell is NaN or the group is empty. -/
def clientNameOf (g : List Record) : List Char :=
  match g with
  | [] => placeholderName
  | r :: _ =>
    match r.name with
    | some n => n
    | none => placeholderName

/-- Definition following the claim's words: the first non-null name
appearing in the group (placeholder when every name is null). -/
def firstNonNullName (g : List Record) : List Char :=
  match g.filterMap Record.name with
  | [] => placeholderName
  | n :: _ => n

/-- C6 counterexample: in a group whose rank-first record (获得UO, rank 2)
has a null name while its other record (拒信, rank 4) is named `X`, the
code resolves the placeholder, not the first non-null name `X` — and `X` is
also the first non-null name in input order, so the claim fails under
either reading of "first". -/
theorem c6_client_name_counterexample :
    clientNameOf (sortRecords
      [⟨some 1, none, [], [], "获得UO".toList, none⟩,
       ⟨some 1, some ('X' :: []), [], [], "拒信".toList, none⟩]) = placeholderName ∧
    firstNonNullName
      [⟨some 1, none, [], [], "获得UO".toList, none⟩,
       ⟨some 1, some ('X' :: []), [], [], "拒信".toList, none⟩] = ('X' :: []) ∧
    placeholderName ≠ ('X' :: []) := by
  refine ⟨by decide, by decide, by decide⟩

/-- C6 (amended): the resolved clientName is the name of the *first record
of the rank-sorted group* when that record's name is non-null, and the
placeholder `未知姓名` otherwise; in particular a group in which every name
is null resolves to the placeholder. -/
theorem c6_client_name_amended (g : List Record) :
    (∀ (r : Record) (rest : List Record), sortRecords g = r :: rest →
      clientNameOf (sortRecords g) =
        (match r.name with
         | some n => n
         | none => placeholderName)) ∧
    ((∀ r ∈ g, r.name = none) →
      clientNameOf (sortRecords g) = placeholderName) := by
  constructor
  · intro r rest h
    rw [h]
    rfl
  · intro hall
    cases h : sortRecords g with
    | nil => rfl
    | cons r rest =>
      have hr : r ∈ g := by
        refine (sortLe_perm recLe g).mem_iff.mp ?_
        rw [show sortLe recLe g = sortRecords g from rfl, h]
        exact List.mem_cons_self r rest
      have hname := hall r hr
      simp [clientNameOf, hname]

/-- Witness for C6 (amended) on a one-record group with a null name. -/
theorem c6_client_name_amended_witness :
    clientNameOf (sortRecords [⟨some 1, none, [], [], [], none⟩]) =
      (match (⟨some 1, none, [], [], [], none⟩ : Record).name with
       | some n => n
       | none => placeholderName) ∧
    clientNameOf (sortRecords [⟨some 1, none, [], [], [], none⟩]) =
      placeholderName :=
  ⟨(c6_client_name_amended [⟨some 1, none, [], [], [], none⟩]).1
      ⟨some 1, none, [], [], [], none⟩ [] (by decide),
    (c6_client_name_amended [⟨some 1, none, [], [], [], none⟩]).2 (by decide)⟩

/-- Cell fill colors (the `PatternFill` start colors used by the code). -/
inductive Fill where
  | noFill
  | red
  | gray
deriving DecidableEq, Repr

/-- Font color override: `white` models `Font(color='FFFFFF')`. -/
inductive FontColor where
  | white
deriving DecidableEq, Repr

/-- A rendered deposit-countdown cell: value (`none` when the cell is never
written), fill, and font override. -/
structure CountdownCell where
  val : Option Int
  fill : Fill
  font : Option FontColor
deriving DecidableEq, Repr

/-- Deposit-countdown rendering (src/app.py lines 304-324): with a parsed
deadline, `days_left = (deadline.date() - today).days` is written;
`days_left <= 30 and days_left > 0` gets red fill and white font, else
`days_left <= 0` gets gray fill with no font override, else nothing is
styled; with no parsed deadline (`pd.notna` false) the cell stays empty.
Dates are modelled as integer day numbers so `.days` is subtraction. -/
def renderCountdown (deadline : Option Int) (today : Int) : CountdownCell :=
  match deadline with
  | none => ⟨none, Fill.noFill, none⟩
  | some d =>
    if d - today ≤ 30 ∧ d - today > 0 then
      ⟨some (d - today), Fill.red, some FontColor.white⟩
    else if d - today ≤ 0 then
      ⟨some (d - today), Fill.gray, none⟩
    else
      ⟨some (d - today), Fill.noFill, none⟩

/-- C5: the countdown cell holds exactly `(deadline - today).days`; the
tier boundaries are exact (`≤ 0` gray with no font override, `0 < · ≤ 30`
red with white font, `> 30` unfilled); missing or unparseable deadlines
leave the cell empty. -/
theorem renderCountdown_some (d today : Int) :
    renderCountdown (some d) today =
      if d - today ≤ 30 ∧ d - today > 0 then
        ⟨some (d - today), Fill.red, some FontColor.white⟩
      else if d - today ≤ 0 then
        ⟨some (d - today), Fill.gray, none⟩
      else
        ⟨some (d - today), Fill.noFill, none⟩ := rfl

theorem c5_countdown_boundaries (d today : Int) :
    (renderCountdown (some d) today).val = some (d - today) ∧
    (d - today ≤ 0 →
      renderCountdown (some d) today = ⟨some (d - today), Fill.gray, none⟩) ∧
    (0 < d - today → d - today ≤ 30 →
      renderCountdown (some d) today =
        ⟨some (d - today), Fill.red, some FontColor.white⟩) ∧
    (30 < d - today →
      renderCountdown (some d) today = ⟨some (d - today), Fill.noFill, none⟩) ∧
    (renderCountdown none today).val = none := by
  refine ⟨?_, ?_, ?_, ?_, rfl⟩
  · rw [renderCountdown_some]
    split_ifs <;> rfl
  · intro h
    rw [renderCountdown_some,
      if_neg (by omega : ¬(d - today ≤ 30 ∧ d - today > 0)),
      if_pos h]
  · intro h1 h2
    rw [renderCountdown_some, if_pos (⟨h2, h1⟩ : d - today ≤ 30 ∧ d - today > 0)]
  · intro h
    rw [renderCountdown_some,
      if_neg (by omega : ¬(d - today ≤ 30 ∧ d - today > 0)),
      if_neg (by omega : ¬(d - today ≤ 0))]

/-- Witness for C5 at the exact boundary days 30, 31, 0 and -1 (deadline
day numbers 40, 41, 10, 9 against reference day 10). -/
theorem c5_countdown_boundaries_witness :
    (renderCountdown (some 40) 10).val = some ((40 : Int) - 10) ∧
    renderCountdown (some 40) 10 =
      ⟨some ((40 : Int) - 10), Fill.red, some FontColor.white⟩ ∧
    renderCountdown (some 41) 10 =
      ⟨some ((41 : Int) - 10), Fill.noFill, none⟩ ∧
    renderCountdown (some 10) 10 =
      ⟨some ((10 : Int) - 10), Fill.gray, none⟩ ∧
    renderCountdown (some 9) 10 =
      ⟨some ((9 : Int) - 10), Fill.gray, none⟩ ∧
    (renderCountdown none 10).val = none :=
  ⟨(c5_countdown_boundaries 40 10).1,
    (c5_countdown_boundaries 40 10).2.2.1 (by norm_num) (by norm_num),
    (c5_countdown_boundaries 41 10).2.2.2.1 (by norm_num),
    (c5_countdown_boundaries 10 10).2.1 (by norm_num),
    (c5_countdown_boundaries 9 10).2.1 (by norm_num),
    (c5_countdown_boundaries 0 10).2.2.2.2⟩

/-- A data row of a rendered per-client sheet (sheet rows 3..N), as read
back by the aggregate passes with `cell(row, col).value`: the first two
columns (申请院校英文, 申请专业英文) and the countdown cell in the last
column.  `Value.vNone` models an empty cell; a countdown cell holds
`Value.vInt` exactly when the builder wrote a day count into it. -/
structure RenderedRow where
  school : Value
  program : Value
  countdown : Value
deriving DecidableEq, Repr

/-- A rendered per-client sheet: its name (the sanitized string form of the
client id used as `create_sheet` title), the client name recovered from the
header hyperlink by `extract_name_from_hyperlink`, and its data rows. -/
structure RenderedSheet where
  sname : List Char
  cname : Value
  rows : List RenderedRow
deriving DecidableEq, Repr

/-- One row of the 押金DDL rollup sheet (src/app.py lines 463-470): name,
client id, institution, program, the 押金截止日期 column value and the
剩余天数 column value. -/
structure SummaryRow where
  name : Value
  cid : List Char
  school : Value
  program : Value
  deadlineCol : Int
  days : Int
deriving DecidableEq, Repr

/-- The sheet names skipped when scanning per-client sheets
(src/app.py lines 449 and 551). -/
def isSummaryName (s : List Char) : Bool :=
  s == "押金DDL".toList || s == "VIP情况".toList

/-- Qualifying rollup rows of one sheet (src/app.py lines 448-470): for
each data row whose countdown cell holds a numeric value in [0, 30], one
SummaryRow is emitted whose 押金截止日期 and 剩余天数 columns both receive
that countdown value (`'押金截止日期': deadline, '剩余天数': deadline`). -/
def deadlineRowsOfSheet (sh : RenderedSheet) : List SummaryRow :=
  if isSummaryName sh.sname then []
  else
    sh.rows.filterMap (fun r =>
      match r.countdown with
      | .vInt d =>
        if 0 ≤ d ∧ d ≤ 30 then
          some ⟨sh.cname, sh.sname, r.school, r.program, d, d⟩
        else none
      | _ => none)

/-- 押金DDL rollup construction (src/app.py lines 446-473): collect the
qualifying rows over all sheets in order, then sort ascending by 剩余天数
(`summary_data.sort(key=lambda x: x['剩余天数'])`, a stable sort). -/
def deadlineRollup (sheets : List RenderedSheet) : List SummaryRow :=
  sortLe (fun x y => decide (x.days ≤ y.days)) (sheets.bind deadlineRowsOfSheet)

theorem mem_deadlineRollup (sheets : List RenderedSheet) (s : SummaryRow) :
    s ∈ deadlineRollup sheets ↔
      ∃ sh ∈ sheets, isSummaryName sh.sname = false ∧
        ∃ r ∈ sh.rows, r.countdown = .vInt s.days ∧ 0 ≤ s.days ∧ s.days ≤ 30 ∧
          s = ⟨sh.cname, sh.sname, r.school, r.program, s.days, s.days⟩ := by
  rw [show deadlineRollup sheets =
    sortLe (fun x y => decide (x.days ≤ y.days)) (sheets.bind deadlineRowsOfSheet)
    from rfl]
  rw [(sortLe_perm _ _).mem_iff, List.mem_bind]
  constructor
  · rintro ⟨sh, hsh, hmem⟩
    unfold deadlineRowsOfSheet at hmem
    by_cases hsum : isSummaryName sh.sname = true
    · rw [if_pos hsum] at hmem
      cases hmem
    · rw [if_neg hsum] at hmem
      rcases List.mem_filterMap.mp hmem with ⟨r, hr, hf⟩
      split at hf
      next d heq =>
        split_ifs at hf with hd
        have hs := Option.some.inj hf
        subst hs
        exact ⟨sh, hsh, by simpa using hsum, r, hr, heq, hd.1, hd.2, rfl⟩
      next x heq =>
        exact Option.noConfusion hf
  · rintro ⟨sh, hsh, hsum, r, hr, hc, h0, h30, hs⟩
    refine ⟨sh, hsh, ?_⟩
    unfold deadlineRowsOfSheet
    rw [if_neg (by simp [hsum])]
    refine List.mem_filterMap.mpr ⟨r, hr, ?_⟩
    rw [hc]
    show (if 0 ≤ s.days ∧ s.days ≤ 30 then
      some (⟨sh.cname, sh.sname, r.school, r.program, s.days, s.days⟩ : SummaryRow)
      else none) = some s
    rw [if_pos (⟨h0, h30⟩ : 0 ≤ s.days ∧ s.days ≤ 30)]
    exact congrArg some hs.symm

/-- C8: the deadline rollup holds exactly one row per per-client data row
whose countdown cell is numeric and in [0, 30] (the collected list is a
permutation of the rollup, so multiplicities agree; membership
characterizes exactly the qualifying rows, and rows with out-of-range or
non-numeric countdown cells are excluded), and the emitted rows are sorted
ascending by 剩余天数. -/
theorem c8_deadline_rollup (sheets : List RenderedSheet) :
    List.Perm (deadlineRollup sheets) (sheets.bind deadlineRowsOfSheet) ∧
    (deadlineRollup sheets).Pairwise (fun x y => x.days ≤ y.days) ∧
    (∀ s : SummaryRow, s ∈ deadlineRollup sheets ↔
      ∃ sh ∈ sheets, isSummaryName sh.sname = false ∧
        ∃ r ∈ sh.rows, r.countdown = .vInt s.days ∧ 0 ≤ s.days ∧ s.days ≤ 30 ∧
          s = ⟨sh.cname, sh.sname, r.school, r.program, s.days, s.days⟩) := by
  refine ⟨sortLe_perm _ _, ?_, mem_deadlineRollup sheets⟩
  have h := @sortLe_pairwise SummaryRow
    (fun x y : SummaryRow => decide (x.days ≤ y.days))
    (fun a b => by
      rcases le_total a.days b.days with h' | h'
      · exact Or.inl (by simpa using h')
      · exact Or.inr (by simpa using h'))
    (fun a b c hab hbc => by
      simp only [decide_eq_true_eq] at hab hbc ⊢
      omega)
    (sheets.bind deadlineRowsOfSheet)
  exact h.imp (by simp)

/-- C10: in every emitted rollup row the 押金截止日期 column holds the same
integer as the 剩余天数 column (the countdown read from the per-client
sheet, not the calendar date). -/
theorem c10_deadline_col_equals_days (sheets : List RenderedSheet)
    (s : SummaryRow) (h : s ∈ deadlineRollup sheets) : s.deadlineCol = s.days := by
  rcases (mem_deadlineRollup sheets s).mp h with ⟨sh, _, _, r, _, _, _, _, hs⟩
  rw [hs]

/-- Witness for C10 on a one-sheet workbook with a single in-range row. -/
theorem c10_deadline_col_equals_days_witness :
    (⟨.vStr ('N' :: []), '5' :: [], .vStr ('A' :: []), .vStr ('B' :: []),
        10, 10⟩ : SummaryRow).deadlineCol =
      (⟨.vStr ('N' :: []), '5' :: [], .vStr ('A' :: []), .vStr ('B' :: []),
        10, 10⟩ : SummaryRow).days :=
  c10_deadline_col_equals_days
    [⟨'5' :: [], .vStr ('N' :: []),
      [⟨.vStr ('A' :: []), .vStr ('B' :: []), .vInt 10⟩]⟩]
    ⟨.vStr ('N' :: []), '5' :: [], .vStr ('A' :: []), .vStr ('B' :: []), 10, 10⟩
    (by decide)

/-- Characters `re.sub(r'[\[\]:*?/\\]', '_', name)` replaces in
`clean_sheet_name` (src/app.py line 38). -/
def sheetDisallowed (c : Char) : Bool :=
  c = '[' || c = ']' || c = ':' || c = '*' || c = '?' || c = '/' || c = '\\'

/-- `clean_sheet_name` (src/app.py lines 33-44): string-coerce, replace the
disallowed characters with underscore, run the general sanitizer, truncate
to 31 characters. -/
def clean_sheet_name (v : Value) : List Char :=
  (cleanChars ((pyStr v).map (fun c => if sheetDisallowed c then '_' else c))).take 31

/-- The hyperlink formula written into the id column (src/app.py line 344),
`=HYPERLINK("[Offer 跟进.xlsx]{original_id}!A1", "{original_id}")`: the
f-string renders the extracted id with `str`, with no sanitization.
Expressed through `linkForm`, whose shape is exactly this formula. -/
def idLinkFormula (idv : Value) : List Char :=
  linkForm ("[Offer 跟进.xlsx]".toList ++ pyStr idv ++ "!A1".toList)
    (',' :: ' ' :: []) (pyStr idv)

/-- The two-pass Cross-Reference Linker (src/app.py lines 166-177 and
339-345) on one id-column cell: capture the extracted id before mutation;
when it is truthy overwrite the cell with the link formula built from it,
otherwise leave the cell untouched. -/
def linkCell (v : Value) : Value :=
  if (extract_id_from_hyperlink v).truthy then
    .vStr (idLinkFormula (extract_id_from_hyperlink v))
  else v

/-- Definition following the claim's words: the formula the claim says is
written, whose sheet anchor is the *sanitized* identifier
(`clean_sheet_name`) while the display text is the original identifier. -/
def specLinkFormula (idv : Value) : List Char :=
  linkForm ("[Offer 跟进.xlsx]".toList ++ clean_sheet_name idv ++ "!A1".toList)
    (',' :: ' ' :: []) (pyStr idv)

/-- C7 counterexample: for the truthy identifier cell `a[b` the written
formula's anchor is the raw string `a[b`, not the sanitized sheet name
`a_b`, so the written cell differs from the claimed one; moreover applying
the ID extractor to the written cell yields the whole formula string (its
display text `a[b` is non-numeric), not the original identifier, so the
claimed round trip also fails. -/
theorem c7_linker_counterexample :
    linkCell (.vStr ('a' :: '[' :: 'b' :: [])) ≠
      .vStr (specLinkFormula (.vStr ('a' :: '[' :: 'b' :: []))) ∧
    extract_id_from_hyperlink (linkCell (.vStr ('a' :: '[' :: 'b' :: []))) ≠
      extract_id_from_hyperlink (.vStr ('a' :: '[' :: 'b' :: [])) := by
  refine ⟨by decide, by decide⟩

theorem isPyDigit_ne_quote {c : Char} (h : isPyDigit c = true) : c ≠ '"' := by
  intro he
  subst he
  revert h
  decide

theorem intChars_ne_quote (n : Int) : ∀ c ∈ intChars n, c ≠ '"' := by
  intro c hc
  have hdig : ∀ x ∈ natChars n.natAbs, x ≠ '"' := by
    intro x hx
    refine isPyDigit_ne_quote ?_
    have := natChars_all_digits n.natAbs
    rw [List.all_eq_true] at this
    exact this x hx
  have hdig' : ∀ x ∈ natChars n.toNat, x ≠ '"' := by
    intro x hx
    refine isPyDigit_ne_quote ?_
    have := natChars_all_digits n.toNat
    rw [List.all_eq_true] at this
    exact this x hx
  unfold intChars at hc
  split_ifs at hc
  · rcases List.mem_cons.mp hc with rfl | hc'
    · decide
    · exact hdig c hc'
  · exact hdig' c hc

/-- C7 (amended): a cell whose extracted identifier is falsy is left
untouched; a cell whose extracted identifier is truthy is overwritten with
the hyperlink formula whose sheet anchor is the *raw string form* of the
extracted identifier (no sanitization — this coincides with the sanitized
form exactly for well-formed integer identifiers), cell `A1`, display text
the same extracted identifier; and because the identifier is extracted
before mutation, the round trip through the ID extractor recovers the
original identifier whenever it is a (nonzero) integer, without
compounding on already-link-formatted cells. -/
theorem c7_linker_amended (v : Value) :
    ((extract_id_from_hyperlink v).truthy = false → linkCell v = v) ∧
    ((extract_id_from_hyperlink v).truthy = true →
      linkCell v = .vStr (idLinkFormula (extract_id_from_hyperlink v))) ∧
    (∀ n : Int, n ≠ 0 → extract_id_from_hyperlink v = .vInt n →
      extract_id_from_hyperlink (linkCell v) = .vInt n) := by
  refine ⟨?_, ?_, ?_⟩
  · intro h
    unfold linkCell
    rw [h]
    rfl
  · intro h
    unfold linkCell
    rw [h]
    rfl
  · intro n hn he
    have htruthy : (extract_id_from_hyperlink v).truthy = true := by
      rw [he]
      simp [Value.truthy, hn]
    unfold linkCell
    rw [htruthy, if_pos rfl, he]
    have hu : ∀ c ∈ "[Offer 跟进.xlsx]".toList ++ pyStr (.vInt n) ++ "!A1".toList,
        c ≠ '"' := by
      have h1 : ∀ c ∈ "[Offer 跟进.xlsx]".toList, c ≠ '"' := by decide
      have h2 : ∀ c ∈ "!A1".toList, c ≠ '"' := by decide
      intro c hc
      rcases List.mem_append.mp hc with hc' | hc'
      · rcases List.mem_append.mp hc' with hc'' | hc''
        · exact h1 c hc''
        · exact intChars_ne_quote n c hc''
      · exact h2 c hc'
    have hsep : ∀ c ∈ (',' :: ' ' :: []), c ≠ '"' := by decide
    have ht : ∀ c ∈ pyStr (.vInt n), c ≠ '"' := fun c hc => intChars_ne_quote n c hc
    show extract_id_from_hyperlink (.vStr (linkForm _ _ _)) = .vInt n
    rw [extract_linkForm hu hsep ht]
    rw [show pyStr (.vInt n) = intChars n from rfl, pyInt?_intChars]

/-- Witness for C7: a falsy cell (`None`) is untouched; the plain integer
id 5 is overwritten with the link formula and round-trips through the
extractor back to 5. -/
theorem c7_linker_amended_witness :
    linkCell .vNone = .vNone ∧
    linkCell (.vInt 5) = .vStr (idLinkFormula (extract_id_from_hyperlink (.vInt 5))) ∧
    extract_id_from_hyperlink (linkCell (.vInt 5)) = .vInt 5 :=
  ⟨(c7_linker_amended .vNone).1 (by decide),
    (c7_linker_amended (.vInt 5)).2.1 (by decide),
    (c7_linker_amended (.vInt 5)).2.2 5 (by decide) (by decide)⟩

/-- One entry of `student_options` (src/app.py lines 543-547): the source
row number, the extracted id, and the two option sets.  Python sets are
modelled as duplicate-free lists in insertion order; the claims compare
them only up to membership. -/
structure OptEntry where
  row : Nat
  sid : Value
  schools : List (List Char)
  programs : List (List Char)
deriving DecidableEq, Repr

/-- `student_options` initialization (src/app.py lines 536-547): one entry
per source row whose id cell is truthy (`if id_cell.value:`) and whose
extracted id is truthy (`if student_id:`), in row order, with empty sets. -/
def buildEntries (idCells : List (Nat × Value)) : List OptEntry :=
  idCells.filterMap (fun rc =>
    if rc.2.truthy then
      (if (extract_id_from_hyperlink rc.2).truthy then
        some ⟨rc.1, extract_id_from_hyperlink rc.2, [], []⟩
      else none)
    else none)

/-- Python `set.add` on the insertion-ordered duplicate-free list model. -/
def insertSet (s : List Char) (l : List (List Char)) : List (List Char) :=
  if s ∈ l then l else l ++ [s]

/-- The matching loop of src/app.py lines 569-573: walk `student_options`
in row order, add the school and program to the FIRST entry whose stored id
`==` the sheet's integer id, then `break`; entries after the first match
are never touched.  A stored string id is never `==` to an int. -/
def addToFirst (sid : Int) (sch prog : List Char) :
    List OptEntry → List OptEntry
  | [] => []
  | e :: es =>
    if e.sid = .vInt sid then
      ⟨e.row, e.sid, insertSet sch e.schools, insertSet prog e.programs⟩ :: es
    else e :: addToFirst sid sch prog es

/-- The sanitized-and-trimmed cell value collected from a data row
(src/app.py lines 565-566): `clean_excel_value(str(v).strip())`; `strip`
is modelled on ASCII whitespace. -/
def cleanedCell (v : Value) : List Char :=
  cleanChars (stripWS (pyStr v))

/-- The (school, program) contributions of the data rows of one sheet
(src/app.py lines 559-566): rows with truthy school and truthy program,
cleaned and trimmed. -/
def rowPairs (rows : List RenderedRow) : List (List Char × List Char) :=
  rows.filterMap (fun r =>
    if r.school.truthy && r.program.truthy then
      some (cleanedCell r.school, cleanedCell r.program)
    else none)

/-- Processing of one rendered sheet (src/app.py lines 550-576): summary
sheet names are skipped, a sheet name that `int()` rejects is skipped
(`except ValueError`), and otherwise every contributing row is pushed into
the first entry matching the sheet's integer id. -/
def processSheet (entries : List OptEntry) (sh : RenderedSheet) :
    List OptEntry :=
  if isSummaryName sh.sname then entries
  else
    match pyInt? sh.sname with
    | none => entries
    | some sid =>
      sh.rows.foldl (fun acc r =>
        if r.school.truthy && r.program.truthy then
          addToFirst sid (cleanedCell r.school) (cleanedCell r.program) acc
        else acc) entries

/-- `student_options` after scanning every sheet of the generated workbook
(src/app.py lines 536-576). -/
def collectOptions (idCells : List (Nat × Value))
    (sheets : List RenderedSheet) : List OptEntry :=
  sheets.foldl processSheet (buildEntries idCells)

/-- The contributions of one sheet toward identifier `n`: empty unless the
sheet is a non-summary sheet whose name parses as the integer `n`. -/
def sheetPairs (sh : RenderedSheet) (n : Int) : List (List Char × List Char) :=
  if isSummaryName sh.sname then []
  else
    match pyInt? sh.sname with
    | none => []
    | some m => if m = n then rowPairs sh.rows else []

/-- All (school, program) contributions toward identifier `n`, over every
sheet in order. -/
def contribPairs (sheets : List RenderedSheet) (n : Int) :
    List (List Char × List Char) :=
  sheets.bind (fun sh => sheetPairs sh n)

/-- The distinct sanitized-and-trimmed institution values the claim says a
row with identifier `n` collects (membership is what matters). -/
def collectedSchools (sheets : List RenderedSheet) (n : Int) : List (List Char) :=
  (contribPairs sheets n).map Prod.fst

/-- The distinct sanitized-and-trimmed program values the claim says a row
with identifier `n` collects. -/
def collectedPrograms (sheets : List RenderedSheet) (n : Int) : List (List Char) :=
  (contribPairs sheets n).map Prod.snd

/-- The entries that receive an auxiliary two-column block in the hidden
options sheet (src/app.py lines 581-583: entries where both sets are empty
are skipped with `continue`). -/
def auxBlockEntries (entries : List OptEntry) : List OptEntry :=
  entries.filter (fun e => !(e.schools.isEmpty && e.programs.isEmpty))

/-- The entries whose source row receives a school list constraint
(src/app.py lines 621-632: only when a block was written and
`schools_written > 0`). -/
def schoolConstraintEntries (entries : List OptEntry) : List OptEntry :=
  (auxBlockEntries entries).filter (fun e => !e.schools.isEmpty)

/-- The entries whose source row receives a program list constraint
(src/app.py lines 634-645). -/
def programConstraintEntries (entries : List OptEntry) : List OptEntry :=
  (auxBlockEntries entries).filter (fun e => !e.programs.isEmpty)

/-- The head-modification a single (school, program) contribution applies
to the sublist of entries bearing the matched id. -/
def applyContribs (ps : List (List Char × List Char)) (l : List OptEntry) :
    List OptEntry :=
  ps.foldl (fun acc p =>
    acc.modifyHead (fun e =>
      ⟨e.row, e.sid, insertSet p.1 e.schools, insertSet p.2 e.programs⟩)) l

theorem addToFirst_filter_eq (sid : Int) (sch prog : List Char)
    (es : List OptEntry) :
    (addToFirst sid sch prog es).filter (fun e => decide (e.sid = Value.vInt sid)) =
      (es.filter (fun e => decide (e.sid = Value.vInt sid))).modifyHead
        (fun e => ⟨e.row, e.sid, insertSet sch e.schools, insertSet prog e.programs⟩) := by
  induction es with
  | nil => rfl
  | cons e es ih =>
    by_cases h : e.sid = Value.vInt sid
    · rw [show addToFirst sid sch prog (e :: es) =
        ⟨e.row, e.sid, insertSet sch e.schools, insertSet prog e.programs⟩ :: es from by
          rw [addToFirst, if_pos h]]
      rw [List.filter_cons, List.filter_cons]
      simp [h]
    · rw [show addToFirst sid sch prog (e :: es) =
        e :: addToFirst sid sch prog es from by
          rw [addToFirst, if_neg h]]
      rw [List.filter_cons, List.filter_cons]
      simp [h, ih]

theorem addToFirst_filter_ne (m n : Int) (hmn : m ≠ n) (sch prog : List Char)
    (es : List OptEntry) :
    (addToFirst m sch prog es).filter (fun e => decide (e.sid = Value.vInt n)) =
      es.filter (fun e => decide (e.sid = Value.vInt n)) := by
  induction es with
  | nil => rfl
  | cons e es ih =>
    by_cases h : e.sid = Value.vInt m
    · have hne : ¬(e.sid = Value.vInt n) := by
        rw [h]
        intro hc
        exact hmn (Value.vInt.inj hc)
      rw [show addToFirst m sch prog (e :: es) =
        ⟨e.row, e.sid, insertSet sch e.schools, insertSet prog e.programs⟩ :: es from by
          rw [addToFirst, if_pos h]]
      rw [List.filter_cons, List.filter_cons]
      simp [hne]
    · rw [show addToFirst m sch prog (e :: es) =
        e :: addToFirst m sch prog es from by
          rw [addToFirst, if_neg h]]
      rw [List.filter_cons, List.filter_cons, ih]

theorem applyContribs_nil_entries (ps : List (List Char × List Char)) :
    applyContribs ps [] = [] := by
  induction ps with
  | nil => rfl
  | cons p ps ih =>
    show applyContribs ps (List.modifyHead _ []) = []
    exact ih

theorem applyContribs_cons_entries (ps : List (List Char × List Char))
    (e : OptEntry) (rest : List OptEntry) :
    applyContribs ps (e :: rest) =
      ⟨e.row, e.sid,
        (ps.map Prod.fst).foldl (fun acc s => insertSet s acc) e.schools,
        (ps.map Prod.snd).foldl (fun acc s => insertSet s acc) e.programs⟩ :: rest := by
  induction ps generalizing e with
  | nil => rfl
  | cons p ps ih =>
    rw [show applyContribs (p :: ps) (e :: rest) = applyContribs ps
      (⟨e.row, e.sid, insertSet p.1 e.schools, insertSet p.2 e.programs⟩ :: rest)
      from rfl]
    rw [ih]
    rfl

theorem foldlRows_filter (sid n : Int) (rows : List RenderedRow)
    (es : List OptEntry) :
    ((rows.foldl (fun acc r =>
        if r.school.truthy && r.program.truthy then
          addToFirst sid (cleanedCell r.school) (cleanedCell r.program) acc
        else acc) es).filter (fun e => decide (e.sid = Value.vInt n))) =
      if sid = n then
        applyContribs (rowPairs rows)
          (es.filter (fun e => decide (e.sid = Value.vInt n)))
      else es.filter (fun e => decide (e.sid = Value.vInt n)) := by
  induction rows generalizing es with
  | nil =>
    rw [List.foldl_nil, show rowPairs [] = [] from rfl]
    split_ifs <;> rfl
  | cons r rows ih =>
    rw [List.foldl_cons]
    by_cases htr : (r.school.truthy && r.program.truthy) = true
    · rw [if_pos htr, ih]
      by_cases hsn : sid = n
      · subst hsn
        rw [if_pos rfl, if_pos rfl, addToFirst_filter_eq]
        rw [show rowPairs (r :: rows) =
          (cleanedCell r.school, cleanedCell r.program) :: rowPairs rows from by
            rw [rowPairs, List.filterMap_cons, if_pos htr]
            rfl]
        rfl
      · rw [if_neg hsn, if_neg hsn, addToFirst_filter_ne sid n hsn]
    · rw [if_neg htr, ih]
      rw [show rowPairs (r :: rows) = rowPairs rows from by
        rw [rowPairs, List.filterMap_cons, if_neg htr]
        rfl]

theorem processSheet_filter (es : List OptEntry) (sh : RenderedSheet) (n : Int) :
    (processSheet es sh).filter (fun e => decide (e.sid = Value.vInt n)) =
      applyContribs (sheetPairs sh n)
        (es.filter (fun e => decide (e.sid = Value.vInt n))) := by
  by_cases hsum : isSummaryName sh.sname = true
  · rw [show processSheet es sh = es from by rw [processSheet, if_pos hsum],
      show sheetPairs sh n = [] from by rw [sheetPairs, if_pos hsum]]
    rfl
  · cases hp : pyInt? sh.sname with
    | none =>
      rw [show processSheet es sh = es from by rw [processSheet, if_neg hsum, hp],
        show sheetPairs sh n = [] from by rw [sheetPairs, if_neg hsum, hp]]
      rfl
    | some m =>
      rw [show processSheet es sh = sh.rows.foldl (fun acc r =>
          if r.school.truthy && r.program.truthy then
            addToFirst m (cleanedCell r.school) (cleanedCell r.program) acc
          else acc) es from by rw [processSheet, if_neg hsum, hp]]
      rw [foldlRows_filter m n]
      by_cases hmn : m = n
      · rw [if_pos hmn, show sheetPairs sh n = rowPairs sh.rows from by
          rw [sheetPairs, if_neg hsum, hp]
          show (if m = n then rowPairs sh.rows else []) = rowPairs sh.rows
          rw [if_pos hmn]]
      · rw [if_neg hmn, show sheetPairs sh n = [] from by
          rw [sheetPairs, if_neg hsum, hp]
          show (if m = n then rowPairs sh.rows else []) = []
          rw [if_neg hmn]]
        rfl

theorem collectOptions_filter (idCells : List (Nat × Value))
    (sheets : List RenderedSheet) (n : Int) :
    (collectOptions idCells sheets).filter
        (fun e => decide (e.sid = Value.vInt n)) =
      applyContribs (contribPairs sheets n)
        ((buildEntries idCells).filter (fun e => decide (e.sid = Value.vInt n))) := by
  suffices h : ∀ (ss : List RenderedSheet) (es : List OptEntry),
      ((ss.foldl processSheet es).filter (fun e => decide (e.sid = Value.vInt n))) =
        applyContribs (contribPairs ss n)
          (es.filter (fun e => decide (e.sid = Value.vInt n))) from h sheets _
  intro ss
  induction ss with
  | nil =>
    intro es
    rfl
  | cons sh ss ih =>
    intro es
    rw [List.foldl_cons, ih, processSheet_filter]
    rw [show contribPairs (sh :: ss) n = sheetPairs sh n ++ contribPairs ss n from by
      simp [contribPairs]]
    rw [applyContribs, applyContribs, applyContribs, List.foldl_append]

theorem mem_insertSet (s x : List Char) (l : List (List Char)) :
    s ∈ insertSet x l ↔ s ∈ l ∨ s = x := by
  unfold insertSet
  split_ifs with h
  · constructor
    · exact Or.inl
    · rintro (hs | rfl)
      · exact hs
      · exact h
  · simp

theorem mem_foldl_insertSet (xs : List (List Char)) (acc : List (List Char))
    (s : List Char) :
    s ∈ xs.foldl (fun a x => insertSet x a) acc ↔ s ∈ acc ∨ s ∈ xs := by
  induction xs generalizing acc with
  | nil => simp
  | cons x xs ih =>
    rw [List.foldl_cons, ih, mem_insertSet, or_assoc, ← List.mem_cons]

theorem buildEntries_sets_empty {idCells : List (Nat × Value)} :
    ∀ e ∈ buildEntries idCells, e.schools = [] ∧ e.programs = [] := by
  intro e he
  unfold buildEntries at he
  rcases List.mem_filterMap.mp he with ⟨rc, _, hf⟩
  split_ifs at hf
  all_goals
    first
    | (have hse := Option.some.inj hf
       rw [← hse]
       exact ⟨rfl, rfl⟩)
    | exact Option.noConfusion hf

/-- C9 counterexample: two source rows (rows 2 and 3) both carry the truthy
identifier 5, and one per-client sheet named `5` contributes the pair
(`A`, `B`).  The claim says every such row's OptionSet equals the collected
distinct values; but the code `break`s after the first matching entry, so
row 3's entry keeps empty sets even though `A`/`B` are among the collected
values. -/
theorem c9_option_sets_counterexample :
    (collectOptions [(2, .vInt 5), (3, .vInt 5)]
        [⟨'5' :: [], .vNone, [⟨.vStr ('A' :: []), .vStr ('B' :: []), .vNone⟩]⟩]).get? 1 =
      some ⟨3, .vInt 5, [], []⟩ ∧
    ('A' :: []) ∈ collectedSchools
      [⟨'5' :: [], .vNone, [⟨.vStr ('A' :: []), .vStr ('B' :: []), .vNone⟩]⟩] 5 ∧
    ('B' :: []) ∈ collectedPrograms
      [⟨'5' :: [], .vNone, [⟨.vStr ('A' :: []), .vStr ('B' :: []), .vNone⟩]⟩] 5 := by
  refine ⟨by decide, by decide, by decide⟩

/-- C9 (amended): for each identifier `n`, among the `student_options`
entries bearing `n` only the FIRST receives the collected options: its
school and program sets equal, as sets, the distinct sanitized-and-trimmed
values collected from the data rows (with both cells truthy) of every
non-summary per-client sheet whose name parses as the integer `n`; every
later entry with the same identifier (a duplicate source row) keeps empty
sets; and an entry whose sets are empty receives no auxiliary block and no
school or program list constraint. -/
theorem c9_option_sets_amended (idCells : List (Nat × Value))
    (sheets : List RenderedSheet) (n : Int) :
    (∀ (e : OptEntry) (rest : List OptEntry),
      (collectOptions idCells sheets).filter
          (fun x => decide (x.sid = Value.vInt n)) = e :: rest →
      ((∀ s, s ∈ e.schools ↔ s ∈ collectedSchools sheets n) ∧
       (∀ p, p ∈ e.programs ↔ p ∈ collectedPrograms sheets n) ∧
       (∀ e' ∈ rest, e'.schools = [] ∧ e'.programs = []))) ∧
    (∀ e : OptEntry, e.schools = [] → e.programs = [] →
      e ∉ auxBlockEntries (collectOptions idCells sheets) ∧
      e ∉ schoolConstraintEntries (collectOptions idCells sheets) ∧
      e ∉ programConstraintEntries (collectOptions idCells sheets)) := by
  constructor
  · intro e rest hfe
    rw [collectOptions_filter] at hfe
    cases hl : (buildEntries idCells).filter
        (fun x => decide (x.sid = Value.vInt n)) with
    | nil =>
      rw [hl, applyContribs_nil_entries] at hfe
      exact absurd hfe (by simp)
    | cons e0 rest0 =>
      rw [hl, applyContribs_cons_entries] at hfe
      have hmem0 : e0 ∈ (buildEntries idCells).filter
          (fun x => decide (x.sid = Value.vInt n)) := by
        rw [hl]
        exact List.mem_cons_self e0 rest0
      have he0 : e0.schools = [] ∧ e0.programs = [] :=
        buildEntries_sets_empty e0 (List.mem_of_mem_filter hmem0)
      have hcons := List.cons.inj hfe
      refine ⟨?_, ?_, ?_⟩
      · intro s
        rw [← hcons.1]
        show s ∈ ((contribPairs sheets n).map Prod.fst).foldl
          (fun acc x => insertSet x acc) e0.schools ↔
          s ∈ collectedSchools sheets n
        rw [he0.1, mem_foldl_insertSet]
        simp [collectedSchools]
      · intro p
        rw [← hcons.1]
        show p ∈ ((contribPairs sheets n).map Prod.snd).foldl
          (fun acc x => insertSet x acc) e0.programs ↔
          p ∈ collectedPrograms sheets n
        rw [he0.2, mem_foldl_insertSet]
        simp [collectedPrograms]
      · intro e' he'
        rw [← hcons.2] at he'
        have hmem' : e' ∈ (buildEntries idCells).filter
            (fun x => decide (x.sid = Value.vInt n)) := by
          rw [hl]
          exact List.mem_cons_of_mem e0 he'
        exact buildEntries_sets_empty e' (List.mem_of_mem_filter hmem')
  · intro e hs hp
    refine ⟨?_, ?_, ?_⟩
    · intro hmem
      have := List.of_mem_filter hmem
      rw [hs, hp] at this
      simp at this
    · intro hmem
      have := List.of_mem_filter hmem
      rw [hs] at this
      simp at this
    · intro hmem
      have := List.of_mem_filter hmem
      rw [hp] at this
      simp at this

/-- Witness for C9 (amended): a single source row with id 5 gets exactly
the options of sheet `5`, and an empty entry gets no block or constraint. -/
theorem c9_option_sets_amended_witness :
    ((∀ s, s ∈ (⟨2, Value.vInt 5, ('A' :: []) :: [], ('B' :: []) :: []⟩
          : OptEntry).schools ↔
        s ∈ collectedSchools
          [⟨'5' :: [], .vNone, [⟨.vStr ('A' :: []), .vStr ('B' :: []), .vNone⟩]⟩] 5) ∧
     (∀ p, p ∈ (⟨2, Value.vInt 5, ('A' :: []) :: [], ('B' :: []) :: []⟩
          : OptEntry).programs ↔
        p ∈ collectedPrograms
          [⟨'5' :: [], .vNone, [⟨.vStr ('A' :: []), .vStr ('B' :: []), .vNone⟩]⟩] 5) ∧
     (∀ e' ∈ ([] : List OptEntry), e'.schools = [] ∧ e'.programs = [])) ∧
    ((⟨9, Value.vInt 7, [], []⟩ : OptEntry) ∉
        auxBlockEntries (collectOptions [(2, .vInt 5)]
          [⟨'5' :: [], .vNone, [⟨.vStr ('A' :: []), .vStr ('B' :: []), .vNone⟩]⟩]) ∧
     (⟨9, Value.vInt 7, [], []⟩ : OptEntry) ∉
        schoolConstraintEntries (collectOptions [(2, .vInt 5)]
          [⟨'5' :: [], .vNone, [⟨.vStr ('A' :: []), .vStr ('B' :: []), .vNone⟩]⟩]) ∧
     (⟨9, Value.vInt 7, [], []⟩ : OptEntry) ∉
        programConstraintEntries (collectOptions [(2, .vInt 5)]
          [⟨'5' :: [], .vNone, [⟨.vStr ('A' :: []), .vStr ('B' :: []), .vNone⟩]⟩])) :=
  ⟨(c9_option_sets_amended [(2, .vInt 5)]
      [⟨'5' :: [], .vNone, [⟨.vStr ('A' :: []), .vStr ('B' :: []), .vNone⟩]⟩] 5).1
      ⟨2, Value.vInt 5, ('A' :: []) :: [], ('B' :: []) :: []⟩ [] (by decide),
    (c9_option_sets_amended [(2, .vInt 5)]
      [⟨'5' :: [], .vNone, [⟨.vStr ('A' :: []), .vStr ('B' :: []), .vNone⟩]⟩] 5).2
      ⟨9, Value.vInt 7, [], []⟩ rfl rfl⟩
